import Mathlib

/-!
Verification development for the golf scorecard OCR interpreter and the
scoring/ranking engine of this repository.

Modelling conventions for the shallow embedding:

* JavaScript numbers that only ever hold integers (handicaps, hole scores,
  totals, tie-break results) are modelled as `Int`; Stableford points, hole
  counts and indices as `Nat`; the confidence estimate as `Rat`.
* `Math.round(sum * 0.1)` rounds half toward plus infinity in JavaScript, so
  it equals `⌊sum / 10 + 1 / 2⌋ = (sum + 5) / 10` in floored integer
  division.  The double-precision computation of `sum * 0.1` agrees with the
  exact rational `sum / 10` at every rounding boundary for all integer sums
  that can occur (checked numerically far beyond the handicap range), so the
  integer formula is an exact model of the source expression.
* `Math.floor(((holeNumber - 1) / totalHoles) * 18)` agrees with the exact
  integer computation `(holeNumber - 1) * 18 / totalHoles` for every hole
  number and hole count that can occur (checked numerically for all
  1 ≤ holeNumber ≤ totalHoles ≤ 30), so it is modelled by natural division.
* Strings are modelled as `List Char`; lines of text as `List Char` values.
  JavaScript regular expressions used by the source are compiled by hand
  into explicit scanning functions; each such function carries a comment
  naming the regex it implements.  The `\b` word-boundary semantics
  (a boundary sits between a word character `[A-Za-z0-9_]` and a non-word
  character or the text edge) is implemented by `isWordChar` tests.
* `Date.now()` is modelled by an explicit `now : Nat` argument threaded to
  the functions that read the clock; nothing else depends on it.
* `breakdown` strings of scoring results are presentation-only and are not
  modelled.  Accessing `players[0]` of an empty player list throws in
  JavaScript; the embedding uses a default player, and every theorem about
  those functions carries a nonempty-players hypothesis so the divergence is
  never exercised.
-/

/-! ## Scoring engine (src/src/lib/rankingHelper.ts) -/

/-- A player on a scorecard: name, playing handicap and gross score per hole. -/
structure PlayerScore where
  name : List Char
  handicap : Int
  holeScores : List Int
  deriving DecidableEq, Repr

/-- The two supported competition formats. -/
inductive ScrambleMode where
  | straight
  | champagne
  deriving DecidableEq, Repr

/-- Input to the scoring engine: a team with its players and hole count. -/
structure TeamData where
  teamName : List Char
  players : List PlayerScore
  holeCount : Nat
  scrambleMode : ScrambleMode
  deriving DecidableEq, Repr

/-- Result of scoring one team.  `netScore` is set for straight scramble,
`pointsTotal` for champagne scramble.  The presentation-only `breakdown`
string of the source is not modelled. -/
structure ScoringResult where
  grossTotal : Int
  teamHandicap : Int
  netScore : Option Int
  pointsTotal : Option Nat
  deriving DecidableEq, Repr

/-- Standard stroke index for 18 holes (hole difficulty ranking). -/
def STROKE_INDEX_18 : List Int :=
  [10, 4, 14, 2, 16, 8, 12, 6, 18, 11, 1, 15, 7, 17, 5, 13, 3, 9]

/-- `calculateTeamHandicap`: `Math.round(sum * 0.1)` where `sum` is the sum of
the player handicaps.  JavaScript rounds half toward plus infinity, so this is
`⌊sum / 10 + 1 / 2⌋`, i.e. `(sum + 5) / 10` with floored division (`Int./` in
this toolchain floors for a positive divisor). -/
def calculateTeamHandicap (playerHandicaps : List Int) : Int :=
  (playerHandicaps.sum + 5) / 10

/-- `calculateGrossTotal`: sum of hole scores. -/
def calculateGrossTotal (holeScores : List Int) : Int :=
  holeScores.sum

/-- Default player used to model the (never exercised in any theorem below)
JavaScript behaviour of reading `players[0]` from an empty array. -/
def defaultPlayer : PlayerScore :=
  { name := [], handicap := 0, holeScores := [] }

/-- `calculateStraightScramble`: team net score = team gross − team handicap,
where the gross total is the score sum of the first player. -/
def calculateStraightScramble (teamData : TeamData) : ScoringResult :=
  let teamHandicap := calculateTeamHandicap (teamData.players.map (·.handicap))
  let grossTotal := calculateGrossTotal (teamData.players.headD defaultPlayer).holeScores
  { grossTotal := grossTotal
    teamHandicap := teamHandicap
    netScore := some (grossTotal - teamHandicap)
    pointsTotal := none }

/-- `getStrokeIndex`: direct table lookup for 18-hole events, proportional
scaling into the 18-slot table otherwise.  Out-of-range lookups (unreachable
from the scoring loop) default to 0. -/
def getStrokeIndex (holeNumber totalHoles : Nat) : Int :=
  if totalHoles = 18 then
    STROKE_INDEX_18.getD (holeNumber - 1) 0
  else
    STROKE_INDEX_18.getD ((holeNumber - 1) * 18 / totalHoles) 0

/-- `getHoleHandicapStrokes`: 1 stroke when the handicap reaches the stroke
index; the later 2-stroke test mirrors the source order of checks. -/
def getHoleHandicapStrokes (playerHandicap : Int) (holeNumber totalHoles : Nat) : Nat :=
  let strokeIndex := getStrokeIndex holeNumber totalHoles
  if playerHandicap ≥ strokeIndex then 1
  else if playerHandicap ≥ strokeIndex + 18 then 2
  else 0

/-- `netScoreToStableford`: net score against par converted to Stableford
points; any case not listed falls through to 0. -/
def netScoreToStableford (netScore : Int) (par : Int := 4) : Nat :=
  let scoreToPar := netScore - par
  if scoreToPar ≥ 2 then 0
  else if scoreToPar = 1 then 1
  else if scoreToPar = 0 then 2
  else if scoreToPar = -1 then 3
  else if scoreToPar = -2 then 4
  else if scoreToPar = -3 then 5
  else if scoreToPar = -4 then 6
  else 0

/-- Stableford points of one player on one hole.  A missing gross score
(`player.holeScores[holeIndex]` undefined) propagates as NaN through the
source subtraction and falls through every comparison of
`netScoreToStableford` to 0 points; the `none` branch models that. -/
def playerHolePoints (player : PlayerScore) (holeNum holeCount : Nat) : Nat :=
  match player.holeScores.get? (holeNum - 1) with
  | none => 0
  | some gross =>
      netScoreToStableford (gross - (getHoleHandicapStrokes player.handicap holeNum holeCount : Int)) 4

/-- Best (highest) Stableford points among the players on one hole, the inner
loop of `calculateChampagneScramble` (`bestPoints` starts at 0 and is replaced
whenever a player beats it). -/
def champagneHolePoints (players : List PlayerScore) (holeNum holeCount : Nat) : Nat :=
  players.foldl
    (fun bestPoints p =>
      let points := playerHolePoints p holeNum holeCount
      if points > bestPoints then points else bestPoints)
    0

/-- `calculateChampagneScramble`: per hole, take the best Stableford points of
any teammate and sum these best-ball points over holes 1..holeCount. -/
def calculateChampagneScramble (teamData : TeamData) : ScoringResult :=
  let teamHandicap := calculateTeamHandicap (teamData.players.map (·.handicap))
  let grossTotal := calculateGrossTotal (teamData.players.headD defaultPlayer).holeScores
  let teamPointsTotal :=
    ((List.range teamData.holeCount).map
      (fun k => champagneHolePoints teamData.players (k + 1) teamData.holeCount)).sum
  { grossTotal := grossTotal
    teamHandicap := teamHandicap
    netScore := none
    pointsTotal := some teamPointsTotal }

/-- `calculateTeamScore`: route to the algorithm selected by the mode. -/
def calculateTeamScore (teamData : TeamData) : ScoringResult :=
  match teamData.scrambleMode with
  | .straight => calculateStraightScramble teamData
  | .champagne => calculateChampagneScramble teamData

/-- The two fields `breakTie` reads from a team record (the source relies on
structural typing; callers pass full team objects). -/
structure TeamTotals where
  grossTotal : Int
  teamHandicap : Int
  deriving DecidableEq, Repr

/-- `breakTie`: lower gross total wins, then lower team handicap, else a
shared position (0). -/
def breakTie (team1 team2 : TeamTotals) : Int :=
  if team1.grossTotal ≠ team2.grossTotal then
    if team1.grossTotal < team2.grossTotal then -1 else 1
  else if team1.teamHandicap ≠ team2.teamHandicap then
    if team1.teamHandicap < team2.teamHandicap then -1 else 1
  else 0

/-! ## Ranking engine (`rankTeams` of src/src/lib/rankingHelper.ts)

`Array.prototype.sort` with a comparator is modelled by a stable insertion
sort over the boolean relation `comparator a b ≤ 0`; for comparators that
are consistent (as the ones here are on the teams actually ranked) every
stable sort produces the same ordering, so the choice of algorithm is
immaterial. -/

/-- A team record as consumed by `rankTeams`. -/
structure RankTeam where
  id : Int
  scrambleMode : ScrambleMode
  netScore : Option Int
  pointsTotal : Option Int
  grossTotal : Int
  teamHandicap : Int
  deriving DecidableEq, Repr

/-- The tie-break fields of a team record (structural typing in the source:
`breakTie` receives the full team object and reads these two fields). -/
def RankTeam.totals (t : RankTeam) : TeamTotals :=
  { grossTotal := t.grossTotal, teamHandicap := t.teamHandicap }

/-- Comparator for straight-scramble teams: ascending net score
(`(a.netScore || 0) - (b.netScore || 0)`), falling back to `breakTie`. -/
def straightCompare (a b : RankTeam) : Int :=
  if a.netScore ≠ b.netScore then a.netScore.getD 0 - b.netScore.getD 0
  else breakTie a.totals b.totals

/-- Comparator for champagne-scramble teams: descending points total
(`(b.pointsTotal || 0) - (a.pointsTotal || 0)`), falling back to `breakTie`. -/
def champagneCompare (a b : RankTeam) : Int :=
  if a.pointsTotal ≠ b.pointsTotal then b.pointsTotal.getD 0 - a.pointsTotal.getD 0
  else breakTie a.totals b.totals

/-- `a` may be placed before `b` by the straight-scramble sort. -/
def straightLE (a b : RankTeam) : Bool :=
  decide (straightCompare a b ≤ 0)

/-- `a` may be placed before `b` by the champagne-scramble sort. -/
def champagneLE (a b : RankTeam) : Bool :=
  decide (champagneCompare a b ≤ 0)

/-- Insert into a sorted list, after any element that may come before the
inserted one (this is the stable placement for an element arriving later). -/
def sortInsert (le : α → α → Bool) (a : α) : List α → List α
  | [] => [a]
  | b :: l => if le a b then a :: b :: l else b :: sortInsert le a l

/-- Stable sort by the boolean relation `le`. -/
def stableSort (le : α → α → Bool) : List α → List α
  | [] => []
  | a :: l => sortInsert le a (stableSort le l)

/-- One output row of the ranking engine. -/
structure RankingEntry where
  id : Int
  rank : Nat
  deriving DecidableEq, Repr

/-- Positional rank assignment, modelling
`sorted.forEach((team, index) => rankings.push({id: team.id, rank: index + 1}))`. -/
def assignRanks (sorted : List RankTeam) (startRank : Nat) : List RankingEntry :=
  match sorted with
  | [] => []
  | t :: rest => { id := t.id, rank := startRank } :: assignRanks rest (startRank + 1)

/-- `rankTeams`: split by scramble mode, sort each group with its comparator,
assign positional ranks per group starting at 1, concatenate. -/
def rankTeams (teams : List RankTeam) : List RankingEntry :=
  let straightTeams := teams.filter (fun t => decide (t.scrambleMode = .straight))
  let champagneTeams := teams.filter (fun t => decide (t.scrambleMode = .champagne))
  assignRanks (stableSort straightLE straightTeams) 1 ++
    assignRanks (stableSort champagneLE champagneTeams) 1

/-- Mixed demo field: two straight teams and two champagne teams. -/
def demoRankTeams : List RankTeam :=
  [ { id := 1, scrambleMode := .straight, netScore := some 72, pointsTotal := none,
      grossTotal := 75, teamHandicap := 3 },
    { id := 2, scrambleMode := .champagne, netScore := none, pointsTotal := some 30,
      grossTotal := 80, teamHandicap := 4 },
    { id := 3, scrambleMode := .straight, netScore := some 70, pointsTotal := none,
      grossTotal := 74, teamHandicap := 4 },
    { id := 4, scrambleMode := .champagne, netScore := none, pointsTotal := some 33,
      grossTotal := 82, teamHandicap := 5 } ]

/-- Demo champagne player: handicap 5, gross 4 on hole 1 of an 18-hole card. -/
def demoChampPlayerA : PlayerScore :=
  { name := ['A'], handicap := 5, holeScores := 4 :: List.replicate 17 4 }

/-- Demo champagne player: handicap 15, gross 5 on hole 1 of an 18-hole card. -/
def demoChampPlayerB : PlayerScore :=
  { name := ['B'], handicap := 15, holeScores := 5 :: List.replicate 17 5 }

/-- Demo champagne team holding the two scenario players. -/
def demoChampTeam : TeamData :=
  { teamName := ['T'], players := [demoChampPlayerA, demoChampPlayerB],
    holeCount := 18, scrambleMode := .champagne }

/-- Demo straight team: handicaps 8, 12, 6 with first-player scores summing
to 75. -/
def demoStraightTeam : TeamData :=
  { teamName := ['S']
    players :=
      [ { name := ['P'], handicap := 8,
          holeScores := [5, 5, 5, 4, 4, 4, 4, 4, 4, 4, 4, 4, 4, 4, 4, 4, 4, 4] },
        { name := ['Q'], handicap := 12, holeScores := List.replicate 18 0 },
        { name := ['R'], handicap := 6, holeScores := List.replicate 18 0 } ]
    holeCount := 18
    scrambleMode := .straight }

/-- Single-hole champagne team whose only player has an unrecovered (0) gross
score: with 1 allocated stroke the net is -1, five under the assumed par 4. -/
def demoTeamGrossZero : TeamData :=
  { teamName := ['L'], players := [{ name := ['P'], handicap := 10, holeScores := [0] }],
    holeCount := 1, scrambleMode := .champagne }

/-- The same team with a par gross score of 4 on the single hole. -/
def demoTeamGrossFour : TeamData :=
  { teamName := ['H'], players := [{ name := ['P'], handicap := 10, holeScores := [4] }],
    holeCount := 1, scrambleMode := .champagne }

/-! ## Scorecard interpreter (src/src/lib/ocr.ts)

Character-level embedding.  JavaScript regexes over the scanned lines are
compiled into explicit scanners; the word-boundary assertion of a pattern
whose matched text starts and ends with word characters holds exactly when
the neighbouring subject characters (if any) are non-word. -/

/-- JS regex \w: [A-Za-z0-9_] (ASCII). -/
def isWordChar (c : Char) : Bool :=
  c.isAlphanum || c == '_'

/-- JS regex \s (whitespace) for the character repertoire in play. -/
def isSpaceJS (c : Char) : Bool :=
  c.isWhitespace

/-- Decimal value of a digit run (as produced by parseInt on it). -/
def digitsToNat (ds : List Char) : Nat :=
  ds.foldl (fun acc c => 10 * acc + (c.toNat - 48)) 0

/-- Split a string into maximal chunks agreeing on the predicate; the Bool
records whether the chunk satisfies it.  Concatenating the chunks recovers
the input. -/
def chunkBy (p : Char → Bool) : List Char → List (List Char × Bool)
  | [] => []
  | c :: rest =>
      match chunkBy p rest with
      | [] => [([c], p c)]
      | (chunk, w) :: tail =>
          if w == p c then (c :: chunk, w) :: tail
          else ([c], p c) :: (chunk, w) :: tail

/-- The maximal word-character runs of a line, left to right. -/
def wordRuns (l : List Char) : List (List Char) :=
  (chunkBy isWordChar l).filterMap (fun cw => if cw.2 then some cw.1 else none)

/-- Numeric tokens of a line per /\b\d{1,2}\b/g: exactly the maximal word
runs consisting of 1 or 2 digits (longer digit runs, or digits glued to
letters, fail one of the boundaries). -/
def numsOf (l : List Char) : List Nat :=
  (wordRuns l).filterMap (fun r =>
    if r.all Char.isDigit && (r.length == 1 || r.length == 2)
    then some (digitsToNat r) else none)

/-- Character at an index, a space (non-word) beyond the ends. -/
def charAtD (l : List Char) (i : Nat) : Char :=
  (l.get? i).getD ' '

/-- Word boundary before position i, for a match whose first character is a
word character. -/
def boundaryBefore (l : List Char) (i : Nat) : Bool :=
  i == 0 || !isWordChar (charAtD l (i - 1))

/-- Word boundary at position i (first position after a match whose last
character is a word character). -/
def boundaryAfter (l : List Char) (i : Nat) : Bool :=
  !isWordChar (charAtD l i)

/-- Case-insensitive comparison against an all-lowercase pattern. -/
def lowerEq (a b : List Char) : Bool :=
  a.map Char.toLower == b

/-- The case-insensitive keyword kw (lowercase, starting and ending with a
word character) matches at position i with \b on both sides. -/
def keywordAt (kw l : List Char) (i : Nat) : Bool :=
  lowerEq ((l.drop i).take kw.length) kw
    && boundaryBefore l i && boundaryAfter l (i + kw.length)

/-- Case-insensitive test of /\bkw\b/. -/
def testWord (kw l : List Char) : Bool :=
  (List.range (l.length + 1)).any (fun i => keywordAt kw l i)

/-- Layout keywords of the primary interpreter. -/
def layoutKeywords : List (List Char) :=
  [ "hole".toList, "yards".toList, "yard's".toList, "par".toList, "index".toList,
    "blue".toList, "white".toList, "green".toList, "pts".toList, "points".toList,
    "ladies".toList ]

/-- Index of the leftmost layout-keyword match (the m.index of the JS
layoutRegex match). -/
def layoutMatchIdx (l : List Char) : Option Nat :=
  (List.range (l.length + 1)).find? (fun i =>
    layoutKeywords.any (fun kw => keywordAt kw l i))

/-- layoutRegex.test. -/
def testLayout (l : List Char) : Bool :=
  (layoutMatchIdx l).isSome

/-- Remove every maximal word run equal (case-insensitively) to one of the
given words, as the global replace of /\b(NAME|HCAP|Hcap|CAP|Cap|HEAP|Heap)\b/gi
with the empty string does. -/
def removeRunsIn (bad : List (List Char)) (l : List Char) : List Char :=
  ((chunkBy isWordChar l).map (fun cw =>
    if cw.2 && bad.any (fun b => lowerEq cw.1 b) then [] else cw.1)).flatten

/-- Remove every maximal word run of 1 or 2 digits (global replace of
/\b\d{1,2}\b/g with the empty string). -/
def removeShortDigitRuns (l : List Char) : List Char :=
  ((chunkBy isWordChar l).map (fun cw =>
    if cw.2 && cw.1.all Char.isDigit && (cw.1.length == 1 || cw.1.length == 2)
    then [] else cw.1)).flatten

/-- The anchored trailing-junk replace: drop the trailing run of characters
that are not a letter, period, apostrophe or whitespace. -/
def stripTrailingJunk (l : List Char) : List Char :=
  (l.reverse.dropWhile (fun c =>
    !(c.isAlpha || c == '.' || c == '\'' || isSpaceJS c))).reverse

/-- Collapse each whitespace run to one space (replace of /\s+/g by a single
space). -/
def squashSpaces (l : List Char) : List Char :=
  ((chunkBy isSpaceJS l).map (fun cw => if cw.2 then [' '] else cw.1)).flatten

/-- JS String.prototype.trim. -/
def trimChars (l : List Char) : List Char :=
  ((l.dropWhile isSpaceJS).reverse.dropWhile isSpaceJS).reverse

/-- `cleanName` of the primary interpreter: cut at the first layout keyword,
remove NAME/HCAP/CAP/HEAP words and short digit runs, strip trailing junk,
squash spaces, trim, uppercase, and treat a bare "NAME" as no name. -/
def cleanName (raw : List Char) : List Char :=
  let cut :=
    match layoutMatchIdx raw with
    | some i => raw.take i
    | none => raw
  let noAnchors :=
    removeRunsIn ["name".toList, "hcap".toList, "cap".toList, "heap".toList] cut
  let noDigits := removeShortDigitRuns noAnchors
  let stripped := stripTrailingJunk noDigits
  let squashed := trimChars (squashSpaces stripped)
  let upper := squashed.map Char.toUpper
  if upper == "NAME".toList then [] else upper

/-- Leftmost match of /\b([0-9]{1,2})\b/: first maximal word run of 1-2
digits. -/
def firstDigitRun (l : List Char) : Option Nat :=
  (wordRuns l).findSome? (fun r =>
    if r.all Char.isDigit && (r.length == 1 || r.length == 2)
    then some (digitsToNat r) else none)

/-- \bHcap\b (case-insensitive) matches at position i. -/
def hcapRunAt (l : List Char) (i : Nat) : Bool :=
  keywordAt "hcap".toList l i

/-- \b[cC]ap\b matches at position i (only the first letter is
case-insensitive in this source regex). -/
def capRunAt (l : List Char) (i : Nat) : Bool :=
  (charAtD l i == 'c' || charAtD l i == 'C') && charAtD l (i + 1) == 'a'
    && charAtD l (i + 2) == 'p' && boundaryBefore l i && boundaryAfter l (i + 3)

/-- Test of /\b[cC]ap\b/. -/
def testCapWord (l : List Char) : Bool :=
  (List.range (l.length + 1)).any (fun i => capRunAt l i)

/-- First match of /\bHcap\b[:\s]*([0-9]{1,2})/i: an Hcap word, optional
colons and whitespace, then 1-2 captured digits (no boundary after them). -/
def hcapThenDigits (l : List Char) : Option Nat :=
  (List.range (l.length + 1)).findSome? (fun i =>
    if hcapRunAt l i then
      let rest := (l.drop (i + 4)).dropWhile (fun c => c == ':' || isSpaceJS c)
      let ds := (rest.takeWhile Char.isDigit).take 2
      if ds.isEmpty then none else some (digitsToNat ds)
    else none)

/-- First match of /([0-9]{1,2})\s*\bHcap\b/i.  The digits carry no leading
boundary; the boundary before Hcap forces at least one whitespace after a
digit, which the hcapRunAt test encodes. -/
def digitsThenHcap (l : List Char) : Option Nat :=
  (List.range (l.length + 1)).findSome? (fun i =>
    [2, 1].findSome? (fun k =>
      let ds := (l.drop i).take k
      if ds.length = k ∧ ds.all Char.isDigit then
        let spaces := ((l.drop (i + k)).takeWhile isSpaceJS).length
        if hcapRunAt l (i + k + spaces) then some (digitsToNat ds) else none
      else none))

/-- First match of /\b[cC]ap\b[:\s]*([0-9]{1,2})/. -/
def capThenDigits (l : List Char) : Option Nat :=
  (List.range (l.length + 1)).findSome? (fun i =>
    if capRunAt l i then
      let rest := (l.drop (i + 3)).dropWhile (fun c => c == ':' || isSpaceJS c)
      let ds := (rest.takeWhile Char.isDigit).take 2
      if ds.isEmpty then none else some (digitsToNat ds)
    else none)

/-- Name (case-insensitive) with a trailing word boundary matches at
position j. -/
def nameAt (l : List Char) (j : Nat) : Bool :=
  lowerEq ((l.drop j).take 4) "name".toList && boundaryAfter l (j + 4)

/-- First match of /\b([0-9]{1,2})\s+Name\b/i. -/
def digitsThenName (l : List Char) : Option Nat :=
  (List.range (l.length + 1)).findSome? (fun i =>
    if boundaryBefore l i then
      [2, 1].findSome? (fun k =>
        let ds := (l.drop i).take k
        if ds.length = k ∧ ds.all Char.isDigit then
          let spaces := ((l.drop (i + k)).takeWhile isSpaceJS).length
          if 1 ≤ spaces ∧ nameAt l (i + k + spaces) then some (digitsToNat ds)
          else none
        else none)
    else none)

/-- `findHandicapNearLine`: scan forward up to 8 lines from the anchor.
Pass 1 looks for explicit Hcap/cap patterns in a line; pass 2 for a digit
run in the line just before or after an Hcap/cap line; pass 3 for a
"number Name" pattern; otherwise 0. -/
def findHandicapNearLine (lines : List (List Char)) (centerIndex : Nat) : Nat :=
  let endIdx := min (lines.length - 1) (centerIndex + 8)
  let idxs := List.range' centerIndex (endIdx + 1 - centerIndex)
  let pass1 := idxs.findSome? (fun i =>
    let line := lines.getD i []
    hcapThenDigits line <|> digitsThenHcap line <|> capThenDigits line)
  match pass1 with
  | some n => n
  | none =>
      let pass2 := idxs.findSome? (fun i =>
        let line := lines.getD i []
        if testWord "hcap".toList line || testCapWord line then
          let prev := if i = 0 then [] else lines.getD (i - 1) []
          let next := lines.getD (i + 1) []
          firstDigitRun prev <|> firstDigitRun next
        else none)
      match pass2 with
      | some n => n
      | none => (idxs.findSome? (fun i => digitsThenName (lines.getD i []))).getD 0

/-- Tail of the inline anchor /Name\b\s*(.*)$/i at the start of a string:
Name case-insensitively, a word boundary, whitespace skipped, the rest
captured. -/
def matchNameTail (l : List Char) : Option (List Char) :=
  if lowerEq (l.take 4) "name".toList then
    match l.drop 4 with
    | [] => some []
    | c :: _ => if isWordChar c then none else some ((l.drop 4).dropWhile isSpaceJS)
  else none

/-- The optional-prefix branch of /^(?:(\d{1,2})\s+)?Name\b\s*(.*)$/i with a
k-digit handicap group (the regex tries 2 digits first, then 1). -/
def inlineWithDigits (line : List Char) (k : Nat) : Option (Option Nat × List Char) :=
  let ds := line.take k
  if ds.length = k ∧ ds.all Char.isDigit then
    match line.drop k with
    | [] => none
    | c :: _ =>
        if isSpaceJS c then
          (matchNameTail ((line.drop k).dropWhile isSpaceJS)).map
            (fun rest => (some (digitsToNat ds), rest))
        else none
  else none

/-- Full match of /^(?:(\d{1,2})\s+)?Name\b\s*(.*)$/i: optional handicap
digits and the inline name text. -/
def inlineName (line : List Char) : Option (Option Nat × List Char) :=
  inlineWithDigits line 2 <|> inlineWithDigits line 1 <|>
    (matchNameTail line).map (fun rest => ((none : Option Nat), rest))

/-- Single character matching /^[A-Z0-9]$/ (case-sensitive). -/
def isSingleCapOrDigit (l : List Char) : Bool :=
  match l with
  | [c] => ('A' ≤ c && c ≤ 'Z') || c.isDigit
  | _ => false

/-- Full-line /^(Hcap|Heap|Cap|cap)$/i. -/
def isHcapOnlyLine (l : List Char) : Bool :=
  lowerEq l "hcap".toList || lowerEq l "heap".toList || lowerEq l "cap".toList

/-- The case-2 loop of the player scanner: walk the lines after the anchor,
skipping empty lines, single capital letters or digits and bare Hcap lines,
stopping at the first layout line, collecting everything else. -/
def collectNameParts (lines : List (List Char)) : List Nat → List (List Char)
  | [] => []
  | j :: rest =>
      let nextLine := lines.getD j []
      if nextLine.isEmpty then collectNameParts lines rest
      else if isSingleCapOrDigit nextLine then collectNameParts lines rest
      else if isHcapOnlyLine nextLine then collectNameParts lines rest
      else if testLayout nextLine then []
      else nextLine :: collectNameParts lines rest

/-- Array.prototype.join with a single space. -/
def joinSpace (parts : List (List Char)) : List Char :=
  match parts with
  | [] => []
  | p :: rest => rest.foldl (fun acc q => acc ++ ' ' :: q) p

/-- A player recovered by the interpreter: cleaned name, handicap and the
index of the anchor line. -/
structure ParsedPlayer where
  name : List Char
  handicap : Nat
  lineIndex : Nat
  deriving DecidableEq, Repr

/-- Body of the player-scanning loop at line index i: skip lines without a
Name word; read the inline name and handicap if present, otherwise collect
the name from the following lines; clean it; drop names shorter than 2
characters and duplicates; resolve the handicap. -/
def playerStep (lines : List (List Char)) (players : List ParsedPlayer) (i : Nat) :
    List ParsedPlayer :=
  let line := lines.getD i []
  if !testWord "name".toList line then players
  else
    let inline := inlineName line
    let rawHandicap : Option Nat := inline.bind (fun pr => pr.1)
    let inlineParts : List (List Char) :=
      match inline with
      | some (_, rest) => if rest.isEmpty then [] else [rest]
      | none => []
    let nameParts :=
      if inlineParts.isEmpty then
        collectNameParts lines (List.range' (i + 1) (min lines.length (i + 5) - (i + 1)))
      else inlineParts
    let rawName := cleanName (joinSpace nameParts)
    if rawName.length < 2 then players
    else if players.any (fun p => p.name == rawName) then players
    else
      let handicap :=
        match rawHandicap with
        | some n => n
        | none => findHandicapNearLine lines i
      players ++ [{ name := rawName, handicap := handicap, lineIndex := i }]

/-- The player-scanning loop over all line indices. -/
def findPlayers (lines : List (List Char)) : List ParsedPlayer :=
  (List.range lines.length).foldl (playerStep lines) []

/-- `inferHoleCount` row membership test value: maximum numeric token of a
line (lines reaching it have at least 6 tokens, so the 0 default never
decides). -/
def rowMax (l : List Char) : Nat :=
  (numsOf l).foldl Nat.max 0

/-- The canonical hole counts {9, 13, 16, 18}. -/
def canonicalHole (n : Nat) : Bool :=
  n == 9 || n == 13 || n == 16 || n == 18

/-- The scanning loop of `inferHoleCount`, carrying the running best guess:
rows with fewer than 6 numeric tokens are skipped; a canonical row maximum
returns immediately; a maximum in [9,18] replaces the best guess. -/
def inferHoleCountAux (ls : List (List Char)) (bestGuess : Nat) : Nat :=
  match ls with
  | [] => bestGuess
  | l :: rest =>
      if (numsOf l).length < 6 then inferHoleCountAux rest bestGuess
      else if canonicalHole (rowMax l) then rowMax l
      else if 9 ≤ rowMax l ∧ rowMax l ≤ 18 then inferHoleCountAux rest (rowMax l)
      else inferHoleCountAux rest bestGuess

/-- `inferHoleCount`: best guess starts at 18. -/
def inferHoleCount (allLines : List (List Char)) : Nat :=
  inferHoleCountAux allLines 18

/-- Lines the score extractor skips (Name, Par, Index, Total, Points?, Hcap,
Heap as case-insensitive words; Points? matches the point and points runs). -/
def isSkippableScoreLine (l : List Char) : Bool :=
  testWord "name".toList l || testWord "par".toList l || testWord "index".toList l
    || testWord "total".toList l || testWord "point".toList l
    || testWord "points".toList l || testWord "hcap".toList l
    || testWord "heap".toList l

/-- Inner token loop of `extractScoresForPlayer`: push tokens in the gross
range [2,12], stopping once the target is reached. -/
def pushScoreTokens (tokens : List Nat) (targetHoles : Nat) (scores : List Nat) : List Nat :=
  match tokens with
  | [] => scores
  | n :: rest =>
      if n < 2 ∨ n > 12 then pushScoreTokens rest targetHoles scores
      else
        let scores2 := scores ++ [n]
        if targetHoles ≤ scores2.length then scores2
        else pushScoreTokens rest targetHoles scores2

/-- Outer line loop of `extractScoresForPlayer` over the window of lines
between the anchors (the loop guard also stops once enough scores are
collected). -/
def collectScoreLines (ls : List (List Char)) (targetHoles : Nat) (scores : List Nat) :
    List Nat :=
  match ls with
  | [] => scores
  | l :: rest =>
      if targetHoles ≤ scores.length then scores
      else if isSkippableScoreLine l then collectScoreLines rest targetHoles scores
      else collectScoreLines rest targetHoles (pushScoreTokens (numsOf l) targetHoles scores)

/-- `extractScoresForPlayer`: scan the lines strictly between this player
anchor and the next (exclusive of endIndex), then pad with 0 to the hole
count and truncate. -/
def extractScoresForPlayer (allLines : List (List Char))
    (startIndex endIndex targetHoles : Nat) : List Nat :=
  let window := (allLines.drop (startIndex + 1)).take (endIndex - (startIndex + 1))
  let scores := collectScoreLines window targetHoles []
  (scores ++ List.replicate (targetHoles - scores.length) 0).take targetHoles

/-- The per-player score extraction of `parseScorecard`: each player reads
from after its own anchor up to the next player anchor (or the end of the
text). -/
def buildHoleScores (lines : List (List Char)) (players : List ParsedPlayer)
    (holeCount : Nat) : List (List Nat) :=
  players.enum.map (fun ip =>
    let thisEnd :=
      match players.get? (ip.1 + 1) with
      | some nextPlayer => nextPlayer.lineIndex
      | none => lines.length
    extractScoresForPlayer lines ip.2.lineIndex thisEnd holeCount)

/-- Line preprocessing of both interpreters: remove carriage returns, split
on newlines, trim, drop empty lines. -/
def trimNonEmptyLines (text : List Char) : List (List Char) :=
  (((text.filter (fun c => c ≠ '\r')).splitOn '\n').map trimChars).filter
    (fun l => !l.isEmpty)

/-- Result of one interpretation pass. -/
structure OCRResult where
  playerNames : List (List Char)
  playerHandicaps : List Nat
  holeScores : List (List Nat)
  detectedHoleCount : Nat
  teamName : List Char
  confidence : Rat
  deriving DecidableEq, Repr

/-- The fixed list of the 32 county names. -/
def counties : List (List Char) :=
  [ "ANTRIM".toList, "ARMAGH".toList, "CARLOW".toList, "CAVAN".toList,
    "CLARE".toList, "CORK".toList, "DERRY".toList, "DONEGAL".toList,
    "DOWN".toList, "DUBLIN".toList, "FERMANAGH".toList, "GALWAY".toList,
    "KERRY".toList, "KILDARE".toList, "KILKENNY".toList, "LAOIS".toList,
    "LEITRIM".toList, "LIMERICK".toList, "LONGFORD".toList, "LOUTH".toList,
    "MAYO".toList, "MEATH".toList, "MONAGHAN".toList, "OFFALY".toList,
    "ROSCOMMON".toList, "SLIGO".toList, "TIPPERARY".toList, "TYRONE".toList,
    "WATERFORD".toList, "WESTMEATH".toList, "WEXFORD".toList, "WICKLOW".toList ]

/-- `generateTeamName`: `counties[Math.floor(Date.now() % counties.length)]`,
with the clock passed explicitly. -/
def generateTeamName (now : Nat) : List Char :=
  counties.getD (now % counties.length) []

/-- `parseScorecard` of the primary interpreter, with the clock reading as an
explicit argument.  Zero recovered players yield the empty low-confidence
result with hole count 0 and confidence 0.2. -/
def parseScorecard (text : List Char) (now : Nat) : OCRResult :=
  let lines := trimNonEmptyLines text
  let holeCount := inferHoleCount lines
  let players := findPlayers lines
  if players.isEmpty then
    { playerNames := [], playerHandicaps := [], holeScores := [],
      detectedHoleCount := 0, teamName := generateTeamName now, confidence := 1/5 }
  else
    let holeScores := buildHoleScores lines players holeCount
    let hasAnyRealScores := holeScores.any (fun row => row.any (fun s => decide (0 < s)))
    let base : Rat :=
      if 3 ≤ players.length then 1/2
      else if players.length = 2 then 9/20
      else 2/5
    { playerNames := players.map (·.name)
      playerHandicaps := players.map (·.handicap)
      holeScores := holeScores
      detectedHoleCount := holeCount
      teamName := generateTeamName now
      confidence := if hasAnyRealScores then base + 1/5 else base }

/-! ## Fallback interpreter variant (src/unnamed/part_004)

Only the pieces that the claims touch are embedded: the row score extractor
with its padding behaviour, and the text-only fallback `parseScorecard`. -/

/-- JS parseInt on a token: skip leading whitespace, optional sign, parse the
leading digit run; none models NaN. -/
def jsParseInt (s : List Char) : Option Int :=
  let t := s.dropWhile isSpaceJS
  let signAndRest : Int × List Char :=
    match t with
    | '-' :: r => (-1, r)
    | '+' :: r => (1, r)
    | _ => (1, t)
  let ds := signAndRest.2.takeWhile Char.isDigit
  if ds.isEmpty then none else some (signAndRest.1 * (digitsToNat ds : Int))

/-- part_004 `extractScoresFromRow`: parse every row token, keep the values
in the gross range [2,12], pad with 0 while short and slice to the hole
count. -/
def extractScoresFromRow (row : List (List Char)) (holeCount : Nat) : List Int :=
  let scores := (row.filterMap jsParseInt).filter (fun n => decide (2 ≤ n ∧ n ≤ 12))
  (scores ++ List.replicate (holeCount - scores.length) 0).take holeCount

/-- Full-line test of /^[A-Za-z.\s]{2,}$/. -/
def isNameLike (l : List Char) : Bool :=
  decide (2 ≤ l.length) && l.all (fun c => c.isAlpha || c == '.' || isSpaceJS c)

/-- First match of /\b(\d{1,2})\s*(hcap|cap)\b/i: 1-2 digits at a word
boundary, optional whitespace, then hcap or cap ending at a word boundary
(no boundary between the digits and the word, so zero whitespace is
allowed). -/
def part004HandicapIn (l : List Char) : Option Nat :=
  (List.range (l.length + 1)).findSome? (fun i =>
    if boundaryBefore l i then
      [2, 1].findSome? (fun k =>
        let ds := (l.drop i).take k
        if ds.length = k ∧ ds.all Char.isDigit then
          let j := i + k + ((l.drop (i + k)).takeWhile isSpaceJS).length
          if lowerEq ((l.drop j).take 4) "hcap".toList ∧ boundaryAfter l (j + 4) then
            some (digitsToNat ds)
          else if lowerEq ((l.drop j).take 3) "cap".toList ∧ boundaryAfter l (j + 3) then
            some (digitsToNat ds)
          else none
        else none)
    else none)

/-- A player recovered by the fallback variant (no line index is kept). -/
structure Part004Player where
  name : List Char
  handicap : Nat
  deriving DecidableEq, Repr

/-- Name lines of the fallback variant: take consecutive following lines
that fully match /^[A-Za-z.\s]{2,}$/, stopping at the first that does not. -/
def part004NameParts (lines : List (List Char)) : List Nat → List (List Char)
  | [] => []
  | j :: rest =>
      let next := lines.getD j []
      if isNameLike next then next :: part004NameParts lines rest
      else []

/-- Handicap search of the fallback variant over a line window: first line
matching the digits-then-hcap pattern wins, else 0. -/
def part004Handicap (lines : List (List Char)) : List Nat → Nat
  | [] => 0
  | j :: rest =>
      match part004HandicapIn (lines.getD j []) with
      | some n => n
      | none => part004Handicap lines rest

/-- Loop body of the fallback player scanner: every line with a Name word
yields a player (empty names become the PLAYER placeholder; no
deduplication, no length filter). -/
def part004PlayerStep (lines : List (List Char)) (players : List Part004Player)
    (i : Nat) : List Part004Player :=
  let line := lines.getD i []
  if !testWord "name".toList line then players
  else
    let nameParts :=
      part004NameParts lines (List.range' (i + 1) (min (i + 4) lines.length - (i + 1)))
    let joined := (joinSpace nameParts).map Char.toUpper
    let name := if joined.isEmpty then "PLAYER".toList else joined
    let handicap := part004Handicap lines (List.range' i (min (i + 5) lines.length - i))
    players ++ [{ name := name, handicap := handicap }]

/-- The fallback player scan over all lines. -/
def part004FindPlayers (lines : List (List Char)) : List Part004Player :=
  (List.range lines.length).foldl (part004PlayerStep lines) []

/-- part_004 fallback `parseScorecard`: hole count is fixed at 18, all hole
scores are zero-filled, confidence is 0.4 with players and 0.2 without. -/
def part004ParseScorecard (text : List Char) (now : Nat) : OCRResult :=
  let lines := trimNonEmptyLines text
  let players := part004FindPlayers lines
  let holeCount := 18
  { playerNames := players.map (·.name)
    playerHandicaps := players.map (·.handicap)
    holeScores := players.map (fun _ => List.replicate holeCount 0)
    detectedHoleCount := holeCount
    teamName := generateTeamName now
    confidence := if 0 < players.length then 2/5 else 1/5 }

/-- A qualifying row with maximum 16. -/
def c4RowSixteen : List Char := "1 2 3 4 5 16".toList

/-- A qualifying row with maximum 18. -/
def c4RowEighteen : List Char := "1 2 3 4 5 18".toList

/-- A qualifying row with the non-canonical maximum 14. -/
def c4RowFourteen : List Char := "1 2 3 4 5 14".toList

/-- Text with one Name anchor and six score tokens, fewer than the detected
18 holes. -/
def demoOCRText : List Char := "Name\nJOHN SMITH\n4 4 4 4 4 4".toList

/-! ## Theorems -/

/-! Generic lemmas about the stable sort. -/

theorem sortInsert_perm (le : α → α → Bool) (a : α) (l : List α) :
    List.Perm (sortInsert le a l) (a :: l) := by
  induction l with
  | nil => simp [sortInsert]
  | cons b t ih =>
      by_cases h : le a b = true
      · simp [sortInsert, h]
      · have h1 : List.Perm (b :: sortInsert le a t) (b :: a :: t) := List.Perm.cons b ih
        have h2 : List.Perm (b :: a :: t) (a :: b :: t) := List.Perm.swap a b t
        simp only [sortInsert, h, if_false, Bool.false_eq_true]
        exact h1.trans h2

theorem stableSort_perm (le : α → α → Bool) (l : List α) :
    List.Perm (stableSort le l) l := by
  induction l with
  | nil => simp [stableSort]
  | cons a t ih =>
      exact (sortInsert_perm le a (stableSort le t)).trans (List.Perm.cons a ih)

theorem mem_sortInsert (le : α → α → Bool) (a x : α) (l : List α) :
    x ∈ sortInsert le a l ↔ x = a ∨ x ∈ l := by
  rw [(sortInsert_perm le a l).mem_iff]
  simp

theorem mem_stableSort (le : α → α → Bool) (x : α) (l : List α) :
    x ∈ stableSort le l ↔ x ∈ l :=
  (stableSort_perm le l).mem_iff

theorem sortInsert_pairwise {P : α → Prop} {le : α → α → Bool}
    (htot : ∀ x y, P x → P y → le x y = true ∨ le y x = true)
    (htrans : ∀ x y z, P x → P y → P z → le x y = true → le y z = true → le x z = true)
    (a : α) (ha : P a) (l : List α) (hl : ∀ x ∈ l, P x)
    (hs : l.Pairwise (fun x y => le x y = true)) :
    (sortInsert le a l).Pairwise (fun x y => le x y = true) := by
  induction l with
  | nil => simp [sortInsert]
  | cons b t ih =>
      have hb : P b := hl b (by simp)
      have hlt : ∀ x ∈ t, P x := fun x hx => hl x (by simp [hx])
      rw [List.pairwise_cons] at hs
      by_cases h : le a b = true
      · simp only [sortInsert, h, if_true]
        rw [List.pairwise_cons]
        refine ⟨?_, List.pairwise_cons.mpr hs⟩
        intro x hx
        rcases List.mem_cons.mp hx with rfl | hx
        · exact h
        · exact htrans a b x ha hb (hlt x hx) h (hs.1 x hx)
      · simp only [sortInsert, h, if_false, Bool.false_eq_true]
        rw [List.pairwise_cons]
        refine ⟨?_, ih hlt hs.2⟩
        intro x hx
        rcases (mem_sortInsert le a x t).mp hx with rfl | hx
        · rcases htot x b ha hb with h1 | h1
          · exact absurd h1 h
          · exact h1
        · exact hs.1 x hx

theorem stableSort_pairwise {P : α → Prop} {le : α → α → Bool}
    (htot : ∀ x y, P x → P y → le x y = true ∨ le y x = true)
    (htrans : ∀ x y z, P x → P y → P z → le x y = true → le y z = true → le x z = true)
    (l : List α) (hl : ∀ x ∈ l, P x) :
    (stableSort le l).Pairwise (fun x y => le x y = true) := by
  induction l with
  | nil => simp [stableSort]
  | cons a t ih =>
      have hlt : ∀ x ∈ t, P x := fun x hx => hl x (by simp [hx])
      exact sortInsert_pairwise htot htrans a (hl a (by simp)) (stableSort le t)
        (fun x hx => hlt x ((mem_stableSort le x t).mp hx)) (ih hlt)

theorem assignRanks_map_rank (l : List RankTeam) (s : Nat) :
    (assignRanks l s).map (fun e => e.rank) = List.range' s l.length := by
  induction l generalizing s with
  | nil => simp [assignRanks]
  | cons t rest ih => simp [assignRanks, ih, List.range'_succ]

/-! Characterisations of the two comparators on teams that carry their
primary metric (straight teams a net score, champagne teams a points total),
used to establish totality and transitivity of the sort relations. -/

theorem straightLE_eq_lex (a b : RankTeam) (x y : Int)
    (hx : a.netScore = some x) (hy : b.netScore = some y) :
    straightLE a b = true ↔
      (x < y ∨ (x = y ∧ (a.grossTotal < b.grossTotal ∨
        (a.grossTotal = b.grossTotal ∧ a.teamHandicap ≤ b.teamHandicap)))) := by
  simp only [straightLE, straightCompare, breakTie, RankTeam.totals, hx, hy, ne_eq,
    Option.some.injEq, Option.getD_some, decide_eq_true_eq]
  split_ifs <;> omega

theorem champagneLE_eq_lex (a b : RankTeam) (x y : Int)
    (hx : a.pointsTotal = some x) (hy : b.pointsTotal = some y) :
    champagneLE a b = true ↔
      (y < x ∨ (x = y ∧ (a.grossTotal < b.grossTotal ∨
        (a.grossTotal = b.grossTotal ∧ a.teamHandicap ≤ b.teamHandicap)))) := by
  simp only [champagneLE, champagneCompare, breakTie, RankTeam.totals, hx, hy, ne_eq,
    Option.some.injEq, Option.getD_some, decide_eq_true_eq]
  split_ifs <;> omega

theorem straightLE_total (a b : RankTeam)
    (ha : a.netScore.isSome = true) (hb : b.netScore.isSome = true) :
    straightLE a b = true ∨ straightLE b a = true := by
  obtain ⟨x, hx⟩ := Option.isSome_iff_exists.mp ha
  obtain ⟨y, hy⟩ := Option.isSome_iff_exists.mp hb
  rw [straightLE_eq_lex a b x y hx hy, straightLE_eq_lex b a y x hy hx]
  omega

theorem straightLE_trans (a b c : RankTeam)
    (ha : a.netScore.isSome = true) (hb : b.netScore.isSome = true)
    (hc : c.netScore.isSome = true)
    (hab : straightLE a b = true) (hbc : straightLE b c = true) :
    straightLE a c = true := by
  obtain ⟨x, hx⟩ := Option.isSome_iff_exists.mp ha
  obtain ⟨y, hy⟩ := Option.isSome_iff_exists.mp hb
  obtain ⟨z, hz⟩ := Option.isSome_iff_exists.mp hc
  rw [straightLE_eq_lex a b x y hx hy] at hab
  rw [straightLE_eq_lex b c y z hy hz] at hbc
  rw [straightLE_eq_lex a c x z hx hz]
  omega

theorem champagneLE_total (a b : RankTeam)
    (ha : a.pointsTotal.isSome = true) (hb : b.pointsTotal.isSome = true) :
    champagneLE a b = true ∨ champagneLE b a = true := by
  obtain ⟨x, hx⟩ := Option.isSome_iff_exists.mp ha
  obtain ⟨y, hy⟩ := Option.isSome_iff_exists.mp hb
  rw [champagneLE_eq_lex a b x y hx hy, champagneLE_eq_lex b a y x hy hx]
  omega

theorem champagneLE_trans (a b c : RankTeam)
    (ha : a.pointsTotal.isSome = true) (hb : b.pointsTotal.isSome = true)
    (hc : c.pointsTotal.isSome = true)
    (hab : champagneLE a b = true) (hbc : champagneLE b c = true) :
    champagneLE a c = true := by
  obtain ⟨x, hx⟩ := Option.isSome_iff_exists.mp ha
  obtain ⟨y, hy⟩ := Option.isSome_iff_exists.mp hb
  obtain ⟨z, hz⟩ := Option.isSome_iff_exists.mp hc
  rw [champagneLE_eq_lex a b x y hx hy] at hab
  rw [champagneLE_eq_lex b c y z hy hz] at hbc
  rw [champagneLE_eq_lex a c x z hx hz]
  omega

theorem rankTeams_group (teams : List RankTeam) :
    rankTeams teams =
      rankTeams (teams.filter (fun t => decide (t.scrambleMode = .straight))) ++
        rankTeams (teams.filter (fun t => decide (t.scrambleMode = .champagne))) := by
  have hss : ∀ l : List RankTeam,
      (l.filter (fun t => decide (t.scrambleMode = .straight))).filter
        (fun t => decide (t.scrambleMode = .straight)) =
      l.filter (fun t => decide (t.scrambleMode = .straight)) := by
    intro l; rw [List.filter_filter]; simp
  have hcc : ∀ l : List RankTeam,
      (l.filter (fun t => decide (t.scrambleMode = .champagne))).filter
        (fun t => decide (t.scrambleMode = .champagne)) =
      l.filter (fun t => decide (t.scrambleMode = .champagne)) := by
    intro l; rw [List.filter_filter]; simp
  have hsc : (teams.filter (fun t => decide (t.scrambleMode = .straight))).filter
      (fun t => decide (t.scrambleMode = .champagne)) = [] := by
    rw [List.filter_eq_nil_iff]
    intro t ht
    have hmode := (List.mem_filter.mp ht).2
    simp only [decide_eq_true_eq] at hmode ⊢
    simp [hmode]
  have hcs : (teams.filter (fun t => decide (t.scrambleMode = .champagne))).filter
      (fun t => decide (t.scrambleMode = .straight)) = [] := by
    rw [List.filter_eq_nil_iff]
    intro t ht
    have hmode := (List.mem_filter.mp ht).2
    simp only [decide_eq_true_eq] at hmode ⊢
    simp [hmode]
  unfold rankTeams
  rw [hss, hcc, hsc, hcs]
  simp [stableSort, assignRanks]

/-- C3: the ranking engine partitions the input by format and ranks the two
groups independently: the output on a mixed list is the concatenation of the
outputs on the straight-only and champagne-only sublists; the emitted rank
values are `1..N` for the straight group followed by `1..M` for the champagne
group; each group is a permutation of its sorted order, sorted by the
respective comparator (ascending net score for straight, descending points
total for champagne, tie-break on exact ties), and ranks are assigned by
sorted position. -/
theorem rankTeams_partitions_and_ranks (teams : List RankTeam)
    (hstraight : ∀ t ∈ teams, t.scrambleMode = .straight → t.netScore.isSome = true)
    (hchamp : ∀ t ∈ teams, t.scrambleMode = .champagne → t.pointsTotal.isSome = true) :
    rankTeams teams =
        rankTeams (teams.filter (fun t => decide (t.scrambleMode = .straight))) ++
          rankTeams (teams.filter (fun t => decide (t.scrambleMode = .champagne)))
      ∧ (rankTeams teams).map (fun e => e.rank) =
          List.range' 1 (teams.filter (fun t => decide (t.scrambleMode = .straight))).length ++
            List.range' 1 (teams.filter (fun t => decide (t.scrambleMode = .champagne))).length
      ∧ List.Perm
          (stableSort straightLE (teams.filter (fun t => decide (t.scrambleMode = .straight))))
          (teams.filter (fun t => decide (t.scrambleMode = .straight)))
      ∧ (stableSort straightLE (teams.filter (fun t => decide (t.scrambleMode = .straight)))).Pairwise
          (fun a b => straightLE a b = true)
      ∧ List.Perm
          (stableSort champagneLE (teams.filter (fun t => decide (t.scrambleMode = .champagne))))
          (teams.filter (fun t => decide (t.scrambleMode = .champagne)))
      ∧ (stableSort champagneLE (teams.filter (fun t => decide (t.scrambleMode = .champagne)))).Pairwise
          (fun a b => champagneLE a b = true)
      ∧ rankTeams teams =
          assignRanks
            (stableSort straightLE (teams.filter (fun t => decide (t.scrambleMode = .straight)))) 1 ++
          assignRanks
            (stableSort champagneLE (teams.filter (fun t => decide (t.scrambleMode = .champagne)))) 1 := by
  have hS : ∀ t ∈ teams.filter (fun t => decide (t.scrambleMode = .straight)),
      t.netScore.isSome = true := by
    intro t ht
    have h := List.mem_filter.mp ht
    exact hstraight t h.1 (by simpa using h.2)
  have hC : ∀ t ∈ teams.filter (fun t => decide (t.scrambleMode = .champagne)),
      t.pointsTotal.isSome = true := by
    intro t ht
    have h := List.mem_filter.mp ht
    exact hchamp t h.1 (by simpa using h.2)
  have hlenS := (stableSort_perm straightLE
    (teams.filter (fun t => decide (t.scrambleMode = .straight)))).length_eq
  have hlenC := (stableSort_perm champagneLE
    (teams.filter (fun t => decide (t.scrambleMode = .champagne)))).length_eq
  refine ⟨rankTeams_group teams, ?_, stableSort_perm _ _,
    stableSort_pairwise straightLE_total straightLE_trans _ hS, stableSort_perm _ _,
    stableSort_pairwise champagneLE_total champagneLE_trans _ hC, rfl⟩
  show (rankTeams teams).map (fun e => e.rank) = _
  unfold rankTeams
  rw [List.map_append, assignRanks_map_rank, assignRanks_map_rank, hlenS, hlenC]

/-- Witness: on the concrete mixed field the two groups receive rank
sequences 1..2 and 1..2 independently. -/
theorem rankTeams_partitions_and_ranks_witness :
    (rankTeams demoRankTeams).map (fun e => e.rank) =
      List.range' 1
        (demoRankTeams.filter (fun t => decide (t.scrambleMode = .straight))).length ++
      List.range' 1
        (demoRankTeams.filter (fun t => decide (t.scrambleMode = .champagne))).length :=
  (rankTeams_partitions_and_ranks demoRankTeams (by decide) (by decide)).2.1

/-- C7: `breakTie` is antisymmetric whenever gross totals or team handicaps
differ, and returns 0 exactly when both gross total and team handicap agree. -/
theorem breakTie_antisymm_and_zero_iff (A B : TeamTotals) :
    (A.grossTotal ≠ B.grossTotal ∨ A.teamHandicap ≠ B.teamHandicap →
        breakTie A B = -breakTie B A)
      ∧ (breakTie A B = 0 ↔
          A.grossTotal = B.grossTotal ∧ A.teamHandicap = B.teamHandicap) := by
  constructor
  · intro h
    unfold breakTie
    split_ifs <;> omega
  · unfold breakTie
    split_ifs <;> first
      | omega
      | (rw [false_iff]; omega)

/-- Witness: antisymmetry at concrete teams with differing gross totals. -/
theorem breakTie_antisymm_witness :
    breakTie { grossTotal := 70, teamHandicap := 5 } { grossTotal := 71, teamHandicap := 5 } =
      -breakTie { grossTotal := 71, teamHandicap := 5 } { grossTotal := 70, teamHandicap := 5 } :=
  (breakTie_antisymm_and_zero_iff
    { grossTotal := 70, teamHandicap := 5 } { grossTotal := 71, teamHandicap := 5 }).1
    (by decide)

/-! Generic lemmas about the best-points fold used by
`calculateChampagneScramble` (running maximum with initial value 0). -/

theorem bestFold_init_le (f : α → Nat) (l : List α) (b : Nat) :
    b ≤ l.foldl (fun best p => if f p > best then f p else best) b := by
  induction l generalizing b with
  | nil => simp
  | cons a t ih =>
      simp only [List.foldl_cons]
      refine le_trans ?_ (ih _)
      by_cases h : f a > b <;> simp [h]
      omega

theorem bestFold_le (f : α → Nat) (l : List α) :
    ∀ (b : Nat) (x : α), x ∈ l →
      f x ≤ l.foldl (fun best p => if f p > best then f p else best) b := by
  induction l with
  | nil => intro b x hx; cases hx
  | cons a t ih =>
      intro b x hx
      simp only [List.foldl_cons]
      rcases List.mem_cons.mp hx with rfl | hx
      · refine le_trans ?_ (bestFold_init_le f t _)
        by_cases h : f x > b <;> simp [h]
        omega
      · exact ih _ x hx

theorem bestFold_mem (f : α → Nat) (l : List α) (b : Nat) :
    l.foldl (fun best p => if f p > best then f p else best) b = b ∨
      l.foldl (fun best p => if f p > best then f p else best) b ∈ l.map f := by
  induction l generalizing b with
  | nil => left; rfl
  | cons a t ih =>
      simp only [List.foldl_cons, List.map_cons]
      rcases ih (if f a > b then f a else b) with h | h
      · by_cases hc : f a > b
        · right
          rw [h]
          simp [hc]
        · left
          rw [h]
          simp [hc]
      · right
        exact List.mem_cons_of_mem _ h

/-- Every player is dominated by the best-ball points of the hole. -/
theorem le_champagneHolePoints (players : List PlayerScore) (holeNum holeCount : Nat)
    (p : PlayerScore) (hp : p ∈ players) :
    playerHolePoints p holeNum holeCount ≤ champagneHolePoints players holeNum holeCount :=
  bestFold_le (fun q => playerHolePoints q holeNum holeCount) players 0 p hp

/-- On a nonempty team, the best-ball points of a hole are attained by some
player (they are the maximum of the per-player points). -/
theorem champagneHolePoints_mem (players : List PlayerScore) (holeNum holeCount : Nat)
    (hne : players ≠ []) :
    champagneHolePoints players holeNum holeCount ∈
      players.map (fun p => playerHolePoints p holeNum holeCount) := by
  rcases bestFold_mem (fun q => playerHolePoints q holeNum holeCount) players 0 with h | h
  · match players, hne with
    | p :: rest, _ =>
        have hle := bestFold_le (fun q => playerHolePoints q holeNum holeCount)
          (p :: rest) 0 p (by simp)
        have hzero : champagneHolePoints (p :: rest) holeNum holeCount = 0 := h
        have hp0 : playerHolePoints p holeNum holeCount = 0 := by
          have : playerHolePoints p holeNum holeCount ≤
              champagneHolePoints (p :: rest) holeNum holeCount := hle
          omega
        rw [hzero, List.map_cons, ← hp0]
        simp
  · exact h

/-- C1: for every champagne team with at least one player, the points total is
the sum over holes 1..holeCount of the per-hole team points, and each
per-hole team points value is the maximum Stableford points over the players
on that hole (it dominates every player and is attained by one); concretely,
on hole 1 of an 18-hole card (stroke index 10) a handicap-5 player with gross
4 scores 2 points, a handicap-15 player with gross 5 scores 2 points, and the
team best-ball points are max(2,2) = 2. -/
theorem champagne_points_are_best_ball :
    (∀ td : TeamData, td.players ≠ [] →
        (calculateChampagneScramble td).pointsTotal =
            some (((List.range td.holeCount).map
              (fun k => champagneHolePoints td.players (k + 1) td.holeCount)).sum)
          ∧ ∀ holeNum, 1 ≤ holeNum → holeNum ≤ td.holeCount →
              (∀ p ∈ td.players,
                  playerHolePoints p holeNum td.holeCount ≤
                    champagneHolePoints td.players holeNum td.holeCount)
                ∧ champagneHolePoints td.players holeNum td.holeCount ∈
                    td.players.map (fun p => playerHolePoints p holeNum td.holeCount))
      ∧ getHoleHandicapStrokes 5 1 18 = 0
      ∧ playerHolePoints demoChampPlayerA 1 18 = 2
      ∧ getHoleHandicapStrokes 15 1 18 = 1
      ∧ playerHolePoints demoChampPlayerB 1 18 = 2
      ∧ champagneHolePoints [demoChampPlayerA, demoChampPlayerB] 1 18 = 2 := by
  refine ⟨?_, by decide, by decide, by decide, by decide, by decide⟩
  intro td hne
  refine ⟨rfl, ?_⟩
  intro holeNum _ _
  exact ⟨fun p hp => le_champagneHolePoints td.players holeNum td.holeCount p hp,
    champagneHolePoints_mem td.players holeNum td.holeCount hne⟩

/-- Witness: the general best-ball statement applied to the concrete demo
team on hole 1. -/
theorem champagne_points_are_best_ball_witness :
    (calculateChampagneScramble demoChampTeam).pointsTotal =
        some (((List.range 18).map
          (fun k => champagneHolePoints demoChampTeam.players (k + 1) 18)).sum)
      ∧ champagneHolePoints demoChampTeam.players 1 18 ∈
          demoChampTeam.players.map (fun p => playerHolePoints p 1 18) := by
  have h := champagne_points_are_best_ball.1 demoChampTeam (by simp [demoChampTeam])
  exact ⟨h.1, (h.2 1 (by decide) (by decide)).2⟩

/-- C2: for every straight team with a first player, the gross total is the
first player hole-score sum, the team handicap is the sum of handicaps times
one tenth rounded to the nearest integer (characterised by the two bracketing
inequalities, halves rounding up), and the net score is gross minus handicap;
concretely handicaps [8,12,6] give handicap 3, and first-player scores
summing to 75 give gross 75 and net 72. -/
theorem straight_scramble_scoring :
    (∀ (td : TeamData) (p : PlayerScore) (rest : List PlayerScore),
        td.players = p :: rest →
          (calculateStraightScramble td).grossTotal = p.holeScores.sum
            ∧ 10 * (calculateStraightScramble td).teamHandicap ≤
                (td.players.map (·.handicap)).sum + 5
            ∧ (td.players.map (·.handicap)).sum + 5 <
                10 * (calculateStraightScramble td).teamHandicap + 10
            ∧ (calculateStraightScramble td).netScore =
                some ((calculateStraightScramble td).grossTotal -
                  (calculateStraightScramble td).teamHandicap))
      ∧ calculateTeamHandicap [8, 12, 6] = 3
      ∧ (calculateStraightScramble demoStraightTeam).grossTotal = 75
      ∧ (calculateStraightScramble demoStraightTeam).teamHandicap = 3
      ∧ (calculateStraightScramble demoStraightTeam).netScore = some 72 := by
  refine ⟨?_, by decide, by decide, by decide, by decide⟩
  intro td p rest hps
  have hhcp : (calculateStraightScramble td).teamHandicap =
      ((td.players.map (·.handicap)).sum + 5) / 10 := rfl
  refine ⟨?_, ?_, ?_, rfl⟩
  · simp [calculateStraightScramble, calculateGrossTotal, hps]
  · rw [hhcp]; omega
  · rw [hhcp]; omega

/-- Witness: the general straight-format statement applied to the demo team. -/
theorem straight_scramble_scoring_witness :
    (calculateStraightScramble demoStraightTeam).netScore =
      some ((calculateStraightScramble demoStraightTeam).grossTotal -
        (calculateStraightScramble demoStraightTeam).teamHandicap) :=
  (straight_scramble_scoring.1 demoStraightTeam
    { name := ['P'], handicap := 8,
      holeScores := [5, 5, 5, 4, 4, 4, 4, 4, 4, 4, 4, 4, 4, 4, 4, 4, 4, 4] }
    [ { name := ['Q'], handicap := 12, holeScores := List.replicate 18 0 },
      { name := ['R'], handicap := 6, holeScores := List.replicate 18 0 } ]
    rfl).2.2.2

/-- C6 (failing input evaluation): on the stroke-index-1 hole of an 18-hole
card (hole 11), a handicap-30 player receives 1 stroke, not 2; in fact the
2-stroke branch of `getHoleHandicapStrokes` is unreachable for every input,
because the 1-stroke test `handicap ≥ strokeIndex` subsumes the later
2-stroke test `handicap ≥ strokeIndex + 18`. -/
theorem getHoleHandicapStrokes_never_two :
    getStrokeIndex 11 18 = 1
      ∧ getHoleHandicapStrokes 30 11 18 = 1
      ∧ ∀ (playerHandicap : Int) (holeNumber totalHoles : Nat),
          getHoleHandicapStrokes playerHandicap holeNumber totalHoles ≠ 2 := by
  refine ⟨by decide, by decide, ?_⟩
  intro playerHandicap holeNumber totalHoles
  simp only [getHoleHandicapStrokes]
  split_ifs <;> omega

/-- Witness: the never-2 statement at the very input the claim calls
reachable. -/
theorem getHoleHandicapStrokes_never_two_witness :
    getHoleHandicapStrokes 30 11 18 ≠ 2 :=
  getHoleHandicapStrokes_never_two.2.2 30 11 18

/-- C10: a net hole score five or more under the assumed par 4 (net ≤ -1)
converts to 0 Stableford points, the same value as a double bogey, not 6 or
more; through the public `calculateChampagneScramble` interface, lowering the
gross score of the only player from 4 to 0 drops the team points total from 3
to 0, so points are not monotone in the net score. -/
theorem stableford_extreme_under_par_zero :
    (∀ netScore : Int, netScore ≤ -1 → netScoreToStableford netScore 4 = 0)
      ∧ netScoreToStableford 6 4 = 0
      ∧ (calculateChampagneScramble demoTeamGrossFour).pointsTotal = some 3
      ∧ (calculateChampagneScramble demoTeamGrossZero).pointsTotal = some 0 := by
  refine ⟨?_, by decide, by decide, by decide⟩
  intro netScore hn
  simp only [netScoreToStableford]
  split_ifs <;> omega

/-- Witness: the conversion at net score -1 (five under par 4). -/
theorem stableford_extreme_under_par_zero_witness :
    netScoreToStableford (-1) 4 = 0 :=
  stableford_extreme_under_par_zero.1 (-1) (by norm_num)

/-! Hole-count detector lemmas. -/

theorem inferHoleCountAux_canonical (ls : List (List Char)) :
    ∀ bestGuess : Nat,
      (∃ l ∈ ls, 6 ≤ (numsOf l).length ∧ canonicalHole (rowMax l) = true) →
        canonicalHole (inferHoleCountAux ls bestGuess) = true
          ∧ ∃ l ∈ ls, 6 ≤ (numsOf l).length ∧ rowMax l = inferHoleCountAux ls bestGuess := by
  induction ls with
  | nil =>
      intro g h
      obtain ⟨l, hl, _⟩ := h
      cases hl
  | cons l rest ih =>
      intro g hex
      by_cases hq : (numsOf l).length < 6
      · have hrec : inferHoleCountAux (l :: rest) g = inferHoleCountAux rest g := by
          simp [inferHoleCountAux, hq]
        have hex' : ∃ l' ∈ rest, 6 ≤ (numsOf l').length ∧ canonicalHole (rowMax l') = true := by
          obtain ⟨l', hl', hq', hc'⟩ := hex
          rcases List.mem_cons.mp hl' with rfl | hmem
          · omega
          · exact ⟨l', hmem, hq', hc'⟩
        obtain ⟨h1, l', hl', h2, h3⟩ := ih g hex'
        rw [hrec]
        exact ⟨h1, l', List.mem_cons_of_mem _ hl', h2, h3⟩
      · by_cases hc : canonicalHole (rowMax l) = true
        · have hrec : inferHoleCountAux (l :: rest) g = rowMax l := by
            simp [inferHoleCountAux, hq, hc]
          rw [hrec]
          exact ⟨hc, l, List.mem_cons_self l rest, by omega, rfl⟩
        · have hex' : ∃ l' ∈ rest, 6 ≤ (numsOf l').length ∧ canonicalHole (rowMax l') = true := by
            obtain ⟨l', hl', hq', hc'⟩ := hex
            rcases List.mem_cons.mp hl' with rfl | hmem
            · exact absurd hc' hc
            · exact ⟨l', hmem, hq', hc'⟩
          by_cases hr : 9 ≤ rowMax l ∧ rowMax l ≤ 18
          · have hrec : inferHoleCountAux (l :: rest) g = inferHoleCountAux rest (rowMax l) := by
              simp [inferHoleCountAux, hq, hc, hr]
            obtain ⟨h1, l', hl', h2, h3⟩ := ih (rowMax l) hex'
            rw [hrec]
            exact ⟨h1, l', List.mem_cons_of_mem _ hl', h2, h3⟩
          · have hrec : inferHoleCountAux (l :: rest) g = inferHoleCountAux rest g := by
              simp [inferHoleCountAux, hq, hc, hr]
            obtain ⟨h1, l', hl', h2, h3⟩ := ih g hex'
            rw [hrec]
            exact ⟨h1, l', List.mem_cons_of_mem _ hl', h2, h3⟩

theorem inferHoleCountAux_later_eighteen (r : List Char) (post : List (List Char))
    (hq : 6 ≤ (numsOf r).length) (hmax : rowMax r = 18) (pre : List (List Char)) :
    ∀ bestGuess : Nat,
      (∀ l ∈ pre, 6 ≤ (numsOf l).length → canonicalHole (rowMax l) = false) →
      inferHoleCountAux (pre ++ r :: post) bestGuess = 18 := by
  induction pre with
  | nil =>
      intro g _
      have h6 : ¬ (numsOf r).length < 6 := by omega
      simp [inferHoleCountAux, h6, hmax, canonicalHole]
  | cons l pre' ih =>
      intro g hpre
      have hpre' : ∀ l' ∈ pre', 6 ≤ (numsOf l').length → canonicalHole (rowMax l') = false :=
        fun l' hm => hpre l' (by simp [hm])
      by_cases hq' : (numsOf l).length < 6
      · rw [List.cons_append]
        have hrec : inferHoleCountAux (l :: (pre' ++ r :: post)) g =
            inferHoleCountAux (pre' ++ r :: post) g := by
          simp [inferHoleCountAux, hq']
        rw [hrec]
        exact ih g hpre'
      · have hcl : canonicalHole (rowMax l) = false := hpre l (by simp) (by omega)
        rw [List.cons_append]
        by_cases hir : 9 ≤ rowMax l ∧ rowMax l ≤ 18
        · have hrec : inferHoleCountAux (l :: (pre' ++ r :: post)) g =
              inferHoleCountAux (pre' ++ r :: post) (rowMax l) := by
            simp [inferHoleCountAux, hq', hcl, hir]
          rw [hrec]
          exact ih (rowMax l) hpre'
        · have hrec : inferHoleCountAux (l :: (pre' ++ r :: post)) g =
              inferHoleCountAux (pre' ++ r :: post) g := by
            simp [inferHoleCountAux, hq', hcl, hir]
          rw [hrec]
          exact ih g hpre'

/-- C4 (amended): the detector returns a canonical row maximum whenever some
qualifying row (at least 6 numeric tokens) has one, even when earlier
qualifying rows carried non-canonical maxima in [9,18]; and a later
qualifying row whose maximum is exactly 18 makes the detector return 18
provided every earlier qualifying row has a non-canonical maximum.  (As
stated the claim fails: an earlier qualifying row whose maximum is exactly
16 is itself canonical and short-circuits the scan, see the
counterexample.) -/
theorem inferHoleCount_canonical_preference :
    (∀ allLines : List (List Char),
        (∃ l ∈ allLines, 6 ≤ (numsOf l).length ∧ canonicalHole (rowMax l) = true) →
          canonicalHole (inferHoleCount allLines) = true
            ∧ ∃ l ∈ allLines, 6 ≤ (numsOf l).length ∧ rowMax l = inferHoleCount allLines)
      ∧ (∀ (pre : List (List Char)) (r : List Char) (post : List (List Char)),
          6 ≤ (numsOf r).length → rowMax r = 18 →
          (∀ l ∈ pre, 6 ≤ (numsOf l).length → canonicalHole (rowMax l) = false) →
          inferHoleCount (pre ++ r :: post) = 18) :=
  ⟨fun allLines hex => inferHoleCountAux_canonical allLines 18 hex,
   fun pre r post hq hmax hpre => inferHoleCountAux_later_eighteen r post hq hmax pre 18 hpre⟩

/-- Counterexample to C4 as stated: with an earlier qualifying row of
maximum 16 and a later qualifying row of maximum exactly 18, the detector
returns 16, not 18 (the earlier canonical maximum short-circuits). -/
theorem inferHoleCount_earlier_sixteen_counterexample :
    6 ≤ (numsOf c4RowEighteen).length ∧ rowMax c4RowEighteen = 18
      ∧ 6 ≤ (numsOf c4RowSixteen).length ∧ rowMax c4RowSixteen = 16
      ∧ inferHoleCount [c4RowSixteen, c4RowEighteen] = 16
      ∧ inferHoleCount [c4RowSixteen, c4RowEighteen] ≠ 18 := by
  decide

/-- Witness: a later 18-row wins over an earlier qualifying row whose
maximum 14 is not canonical. -/
theorem inferHoleCount_canonical_preference_witness :
    inferHoleCount [c4RowFourteen, c4RowEighteen] = 18 :=
  inferHoleCount_canonical_preference.2 [c4RowFourteen] c4RowEighteen []
    (by decide) (by decide) (by decide)

/-! Padding-invariant lemmas. -/

theorem extractScoresForPlayer_length (allLines : List (List Char))
    (startIndex endIndex targetHoles : Nat) :
    (extractScoresForPlayer allLines startIndex endIndex targetHoles).length = targetHoles := by
  unfold extractScoresForPlayer
  simp [List.length_take, List.length_append, List.length_replicate]
  omega

theorem extractScoresFromRow_length (row : List (List Char)) (holeCount : Nat) :
    (extractScoresFromRow row holeCount).length = holeCount := by
  unfold extractScoresFromRow
  simp [List.length_take, List.length_append, List.length_replicate]
  omega

theorem buildHoleScores_length (lines : List (List Char)) (players : List ParsedPlayer)
    (holeCount : Nat) :
    ∀ row ∈ buildHoleScores lines players holeCount, row.length = holeCount := by
  intro row hrow
  unfold buildHoleScores at hrow
  obtain ⟨ip, _, heq⟩ := List.mem_map.mp hrow
  rw [← heq]
  exact extractScoresForPlayer_length _ _ _ _

/-- C5: every extracted per-hole score sequence has exactly the target hole
count many entries, padding with 0 when too few score tokens were found and
truncating when too many: this holds for the line-window extractor, for the
part_004 row extractor, and for every row the interpreter returns, whose
length always equals the detected hole count of the same result. -/
theorem parsed_player_scores_length :
    (∀ (allLines : List (List Char)) (startIndex endIndex targetHoles : Nat),
        (extractScoresForPlayer allLines startIndex endIndex targetHoles).length = targetHoles)
      ∧ (∀ (row : List (List Char)) (holeCount : Nat),
          (extractScoresFromRow row holeCount).length = holeCount)
      ∧ (∀ (text : List Char) (now : Nat),
          ∀ row ∈ (parseScorecard text now).holeScores,
            row.length = (parseScorecard text now).detectedHoleCount) := by
  refine ⟨extractScoresForPlayer_length, extractScoresFromRow_length, ?_⟩
  intro text now row hrow
  by_cases hp : (findPlayers (trimNonEmptyLines text)).isEmpty
  · simp only [parseScorecard, if_pos hp, List.not_mem_nil] at hrow
  · simp only [parseScorecard, if_neg hp] at hrow ⊢
    exact buildHoleScores_length _ _ _ row hrow

/-- Witness: on the demo text the single extracted row is the six recovered
scores padded with twelve zeros, and its length is the detected hole count. -/
theorem parsed_player_scores_length_witness :
    (([4, 4, 4, 4, 4, 4] ++ List.replicate 12 0) : List Nat) ∈
        (parseScorecard demoOCRText 0).holeScores
      ∧ (([4, 4, 4, 4, 4, 4] ++ List.replicate 12 0) : List Nat).length =
          (parseScorecard demoOCRText 0).detectedHoleCount :=
  ⟨by decide, parsed_player_scores_length.2.2 demoOCRText 0 _ (by decide)⟩

/-! Zero-extraction lemmas. -/

/-- C8 (amended): on every input from which zero players are recovered
(including the empty text), each text interpreter returns a normal result
value with empty player lists; the primary interpreter returns detected hole
count 0 and confidence exactly 0.2, while the part_004 fallback variant
returns confidence 0.2 but detected hole count 18.  (As stated the claim
fails for the part_004 variant, see the counterexample.) -/
theorem parseScorecard_zero_players :
    (∀ (text : List Char) (now : Nat),
        findPlayers (trimNonEmptyLines text) = [] →
          parseScorecard text now =
            { playerNames := [], playerHandicaps := [], holeScores := [],
              detectedHoleCount := 0, teamName := generateTeamName now,
              confidence := 1/5 })
      ∧ (∀ (text : List Char) (now : Nat),
          part004FindPlayers (trimNonEmptyLines text) = [] →
            part004ParseScorecard text now =
              { playerNames := [], playerHandicaps := [], holeScores := [],
                detectedHoleCount := 18, teamName := generateTeamName now,
                confidence := 1/5 }) := by
  constructor
  · intro text now h
    simp [parseScorecard, h]
  · intro text now h
    simp [part004ParseScorecard, h]

/-- Counterexample to C8 as stated: the part_004 parsing variant recovers
zero players from the empty text yet reports detected hole count 18, not 0. -/
theorem part004_zero_players_holeCount_counterexample :
    (part004ParseScorecard [] 0).playerNames = []
      ∧ (part004ParseScorecard [] 0).detectedHoleCount = 18
      ∧ (part004ParseScorecard [] 0).detectedHoleCount ≠ 0 := by
  decide

/-- Witness: the primary interpreter on the empty text. -/
theorem parseScorecard_zero_players_witness :
    parseScorecard [] 0 =
      { playerNames := [], playerHandicaps := [], holeScores := [],
        detectedHoleCount := 0, teamName := generateTeamName 0,
        confidence := 1/5 } :=
  parseScorecard_zero_players.1 [] 0 (by decide)

/-! Determinism lemmas. -/

/-- C9 (amended): the interpretation is a deterministic function of the text
payload in every field except the team label: player names, handicaps, hole
scores, detected hole count and confidence agree across invocations at
different clock readings, while the team label is derived from the clock
reading alone (counties[now % 32]), not from the input.  (As stated the
claim fails: two invocations at different clock readings return different
team labels, see the counterexample.) -/
theorem parseScorecard_deterministic_except_teamName :
    ∀ (text : List Char) (now1 now2 : Nat),
      (parseScorecard text now1).playerNames = (parseScorecard text now2).playerNames
        ∧ (parseScorecard text now1).playerHandicaps =
            (parseScorecard text now2).playerHandicaps
        ∧ (parseScorecard text now1).holeScores = (parseScorecard text now2).holeScores
        ∧ (parseScorecard text now1).detectedHoleCount =
            (parseScorecard text now2).detectedHoleCount
        ∧ (parseScorecard text now1).confidence = (parseScorecard text now2).confidence
        ∧ (parseScorecard text now1).teamName = generateTeamName now1 := by
  intro text now1 now2
  by_cases hp : (findPlayers (trimNonEmptyLines text)).isEmpty
  · simp [parseScorecard, hp]
  · simp [parseScorecard, hp]

/-- Counterexample to C9 as stated: the same empty payload interpreted at
clock readings 0 and 5 yields different team labels (ANTRIM and CORK), so
two invocations do not return identical results in every field. -/
theorem parseScorecard_teamName_counterexample :
    (parseScorecard [] 0).teamName ≠ (parseScorecard [] 5).teamName := by
  decide

